import Mathlib

/-!
Verification development for the ntt copy worker
(`bin/ntt-copier.py`, `bin/ntt_copier_strategies.py`).

The Python source is shallowly embedded: byte strings and Python `str`
values are `List Nat` (bytes, respectively Unicode code points), the
filesystem is a finite map from absolute paths to inode numbers plus a
size table, and the relevant database tables are lists of row
structures.  Every definition is translated from the source; theorems
settle the specification claims.
-/

namespace NTT

/-! ## Path codec (`ntt_copier_strategies.sanitize_path`)

`sanitize_path` does `bytes.decode('utf-8', errors='surrogateescape')`
followed by `.replace('\\r', '\r').replace('\\n', '\n')`.  We model the
CPython UTF-8 decoder with the surrogateescape error handler: every
byte that cannot be decoded becomes the code point `0xDC00 + byte`.
CPython reports maximal invalid subparts byte by byte to the handler,
which is equivalent to the byte-at-a-time error recovery used here. -/

/-- A UTF-8 continuation byte (`0x80..0xBF`). -/
def isCont (b : Nat) : Bool := 0x80 ≤ b && b ≤ 0xBF

/-- Valid second byte of a three-byte sequence, given the lead byte
(excludes overlong encodings and surrogate code points, as CPython does). -/
def cont3 (b c1 : Nat) : Bool :=
  if b = 0xE0 then 0xA0 ≤ c1 && c1 ≤ 0xBF
  else if b = 0xED then 0x80 ≤ c1 && c1 ≤ 0x9F
  else isCont c1

/-- Valid second byte of a four-byte sequence, given the lead byte
(excludes overlong encodings and code points above U+10FFFF). -/
def cont4 (b c1 : Nat) : Bool :=
  if b = 0xF0 then 0x90 ≤ c1 && c1 ≤ 0xBF
  else if b = 0xF4 then 0x80 ≤ c1 && c1 ≤ 0x8F
  else isCont c1

/-- One step of the CPython UTF-8 decoder with the surrogateescape
error handler: given the lead byte and the remaining bytes, return the
emitted code point and the bytes left to decode.  An undecodable lead
byte is emitted as `0xDC00 + byte` and only that byte is consumed. -/
def decodeStep (b : Nat) (rest : List Nat) : Nat × List Nat :=
  if b < 0x80 then (b, rest)
  else if 0xC2 ≤ b ∧ b ≤ 0xDF then
    match rest with
    | c1 :: rest2 =>
      if isCont c1 then ((b - 0xC0) * 64 + (c1 - 0x80), rest2)
      else (0xDC00 + b, rest)
    | [] => (0xDC00 + b, rest)
  else if 0xE0 ≤ b ∧ b ≤ 0xEF then
    match rest with
    | c1 :: c2 :: rest3 =>
      if cont3 b c1 && isCont c2 then
        ((b - 0xE0) * 4096 + (c1 - 0x80) * 64 + (c2 - 0x80), rest3)
      else (0xDC00 + b, rest)
    | _ => (0xDC00 + b, rest)
  else if 0xF0 ≤ b ∧ b ≤ 0xF4 then
    match rest with
    | c1 :: c2 :: c3 :: rest4 =>
      if cont4 b c1 && isCont c2 && isCont c3 then
        ((b - 0xF0) * 262144 + (c1 - 0x80) * 4096 + (c2 - 0x80) * 64 + (c3 - 0x80), rest4)
      else (0xDC00 + b, rest)
    | _ => (0xDC00 + b, rest)
  else (0xDC00 + b, rest)

/-- Fuel-indexed decode loop; the fuel only bounds the number of steps
and one unit of fuel is always enough for one consumed byte, so
`decodeFuel l.length l` runs the loop to completion. -/
def decodeFuel : Nat → List Nat → List Nat
  | _, [] => []
  | 0, _ :: _ => []
  | fuel + 1, b :: rest => (decodeStep b rest).1 :: decodeFuel fuel (decodeStep b rest).2

/-- CPython `bytes.decode('utf-8', errors='surrogateescape')`:
bytes in, Unicode code points out.  Undecodable bytes become
`0xDC00 + byte` (a low surrogate in `0xDC80..0xDCFF`). -/
def decodeSE (l : List Nat) : List Nat := decodeFuel l.length l

/-- UTF-8 encoding of one code point under
`str.encode('utf-8', errors='surrogateescape')`: surrogates in
`0xDC80..0xDCFF` map back to the single byte they escaped. -/
def enc1 (cp : Nat) : List Nat :=
  if cp < 0x80 then [cp]
  else if cp < 0x800 then [0xC0 + cp / 64, 0x80 + cp % 64]
  else if cp < 0x10000 then
    if 0xDC80 ≤ cp ∧ cp ≤ 0xDCFF then [cp - 0xDC00]
    else [0xE0 + cp / 4096, 0x80 + cp / 64 % 64, 0x80 + cp % 64]
  else [0xF0 + cp / 262144, 0x80 + cp / 4096 % 64, 0x80 + cp / 64 % 64, 0x80 + cp % 64]

/-- CPython `str.encode('utf-8', errors='surrogateescape')`. -/
def encodeSE : List Nat → List Nat
  | [] => []
  | c :: cs => enc1 c ++ encodeSE cs

/-- Python `str.replace(chr(0x5C) ++ tgtChar, replChar)` on code-point
strings: replace every (left-to-right, non-overlapping) occurrence of
the two-character sequence backslash-`tgt` by the single character
`repl`.  Models the `.replace('\\r', '\r')` / `.replace('\\n', '\n')`
calls of `sanitize_path`. -/
def replacePair (tgt repl : Nat) : List Nat → List Nat
  | [] => []
  | [a] => [a]
  | a :: c :: rest =>
    if a = 0x5C ∧ c = tgt then repl :: replacePair tgt repl rest
    else a :: replacePair tgt repl (c :: rest)

/-- The `sanitized` string of `sanitize_path` (and of the inline
decode-and-substitute code in `create_hardlinks_idempotent`): decode
with surrogateescape, then substitute the literal escape sequences.
This is the plain `str` value, before any `Path()` wrapping. -/
def sanitizeStr (path : List Nat) : List Nat :=
  replacePair 0x6E 0x0A (replacePair 0x72 0x0D (decodeSE path))

/-- Split a code-point string on the slash character, keeping empty
segments (plain string split, used to model `PurePosixPath` parsing). -/
def splitSlash : List Nat → List (List Nat)
  | [] => [[]]
  | c :: rest =>
    if c = 0x2F then [] :: splitSlash rest
    else
      match splitSlash rest with
      | seg :: segs => (c :: seg) :: segs
      | [] => [[c]]

/-- Root of a POSIX path as `posixpath.splitroot` computes it: `//` for
exactly two leading slashes, `/` for one or for three and more, empty
for a relative path. -/
def pathRoot (s : List Nat) : List Nat :=
  match s with
  | 0x2F :: 0x2F :: rest =>
    if rest.head? = some 0x2F then [0x2F] else [0x2F, 0x2F]
  | 0x2F :: _ => [0x2F]
  | _ => []

/-- Model of `str(PurePosixPath(s))`: drop empty and single-dot
segments, keep the root, join the remaining segments with single
slashes; the empty path renders as a single dot.  This is the
normalization that `Path(sanitized)` performs (collapsing doubled
slashes and `/./`, stripping trailing slashes); `..` segments are
kept. -/
def posixPathStr (s : List Nat) : List Nat :=
  let root := pathRoot s
  let parts := (splitSlash s).filter (fun seg => ¬(seg = [] ∨ seg = [0x2E]))
  if parts = [] then (if root = [] then [0x2E] else root)
  else root ++ List.intercalate [0x2F] parts

/-- Model of `ntt_copier_strategies.sanitize_path` on a `bytea` value:
decode with surrogateescape, substitute literal escape sequences, and
wrap in `Path(...)`.  The result is the code-point string of the
returned `Path`, including the `PurePosixPath` normalization. -/
def sanitize_path (path : List Nat) : List Nat :=
  posixPathStr (sanitizeStr path)

/-! ## Filesystem model

The filesystem is a map from absolute paths (code-point strings) to
inode numbers, together with a per-inode size table and a fresh-inode
counter.  Directories are not modelled: `mkdir(parents=True,
exist_ok=True)` never fails and has no effect on the file map, so the
directory phases of the source are no-ops here. -/

structure FS where
  entries : List Nat → Option Nat
  isize : Nat → Option Nat
  nextIno : Nat

def emptyFS : FS := { entries := fun _ => none, isize := fun _ => none, nextIno := 0 }

/-- Effect of `os.link` / overwriting directory-entry creation: bind path `p` to
inode `i`. -/
def insertFS (fs : FS) (p : List Nat) (i : Nat) : FS :=
  { fs with entries := fun q => if q = p then some i else fs.entries q }

/-- Effect of `os.unlink`: remove the directory entry at `p`. -/
def eraseFS (fs : FS) (p : List Nat) : FS :=
  { fs with entries := fun q => if q = p then none else fs.entries q }

/-- Effect of `Path.touch(exist_ok=True)`: create an empty file if absent. -/
def touchFS (fs : FS) (p : List Nat) : FS :=
  match fs.entries p with
  | some _ => fs
  | none =>
    { entries := fun q => if q = p then some fs.nextIno else fs.entries q,
      isize := fun j => if j = fs.nextIno then some 0 else fs.isize j,
      nextIno := fs.nextIno + 1 }

/-- Code points of a Lean string literal (used for path and hex-digest
constants; Python `str` values are code-point lists here). -/
def strCodes (s : String) : List Nat := s.toList.map Char.toNat

/-- The `pathlib` slash join (left operand has no trailing slash). -/
def joinPath (root rel : List Nat) : List Nat := root ++ 0x2F :: rel

/-- Python `str.lstrip('/')`. -/
def lstripSlash : List Nat → List Nat
  | 0x2F :: rest => lstripSlash rest
  | l => l

/-- The sharded by-hash location `BY_HASH_ROOT / hash_val[:2] / hash_val[2:4] / hash_val`. -/
def byHashPath (root : List Nat) (h : String) : List Nat :=
  joinPath (joinPath (joinPath root ((strCodes h).take 2)) (((strCodes h).drop 2).take 2))
    (strCodes h)

/-- Archive path of one database path value inside
`create_hardlinks_idempotent`, which works on the plain sanitized
string (it does not call `sanitize_path`): decode the bytea, substitute
the literal escape sequences, strip leading slashes, join under the
archive root. -/
def hardlinkTarget (archiveRoot : List Nat) (pathBytes : List Nat) : List Nat :=
  joinPath archiveRoot (lstripSlash (sanitizeStr pathBytes))

/-- Phase-4 loop body of `create_hardlinks_idempotent` for one path:
skip when the archive entry already points at the by-hash inode,
unlink-and-relink when it points elsewhere, link when absent.  The
state is the filesystem plus `created_count`.  (`FileExistsError` from
a concurrent worker cannot arise in this sequential model.) -/
def linkOne (hashIno : Nat) (archiveRoot : List Nat) (st : FS × Nat) (pathBytes : List Nat) :
    FS × Nat :=
  let ap := hardlinkTarget archiveRoot pathBytes
  match st.1.entries ap with
  | some ino =>
    if ino = hashIno then st
    else (insertFS (eraseFS st.1 ap) ap hashIno, st.2 + 1)
  | none => (insertFS st.1 ap hashIno, st.2 + 1)

/-- Model of `ntt_copier_strategies.create_hardlinks_idempotent`: returns the
updated filesystem and the number of new hardlinks actually created,
or `none` when `hash_path.stat()` raises because the by-hash file is
missing.  The directory phases (1-3) have no effect on the file map. -/
def create_hardlinks_idempotent (hashPath : List Nat) (pathsToLink : List (List Nat))
    (archiveRoot : List Nat) (fs : FS) : Option (FS × Nat) :=
  if pathsToLink = [] then some (fs, 0)
  else
    match fs.entries hashPath with
    | none => none
    | some hashIno => some (pathsToLink.foldl (linkOne hashIno archiveRoot) (fs, 0))

/-- Outcome of `shutil.move(temp, dst)` for regular files. -/
inductive MoveOutcome
  | moved (fs : FS)
  | fileExistsErr
  | srcMissing

/-- Semantics of `shutil.move` between regular-file paths on POSIX: `os.rename`
atomically replaces an existing destination (the cross-device fallback
`copy2` + `unlink` likewise overwrites it), so `FileExistsError` is
never raised; the `fileExistsErr` outcome is unreachable. -/
def shutil_move (src dst : List Nat) (fs : FS) : MoveOutcome :=
  match fs.entries src with
  | none => .srcMissing
  | some ino => .moved (insertFS (eraseFS fs src) dst ino)

/-- Model of `CopyWorker.execute_copy_new_file_fs`: move the temp file over the
by-hash path, treating `FileExistsError` as the lost race
(`temp_file.unlink()`, `by_hash_created = False`), then fan out the
hardlinks.  Returns the filesystem and `by_hash_created`. -/
def execute_copy_new_file_fs (byHashRoot archiveRoot : List Nat) (blobid : String)
    (tempFile : List Nat) (pathsToLink : List (List Nat)) (fs : FS) : Option (FS × Bool) :=
  let hashPath := byHashPath byHashRoot blobid
  match shutil_move tempFile hashPath fs with
  | .srcMissing => none
  | .moved fs1 =>
    match create_hardlinks_idempotent hashPath pathsToLink archiveRoot fs1 with
    | none => none
    | some (fs2, _) => some (fs2, true)
  | .fileExistsErr =>
    let fs1 := eraseFS fs tempFile
    match create_hardlinks_idempotent hashPath pathsToLink archiveRoot fs1 with
    | none => none
    | some (fs2, _) => some (fs2, false)

/-- Model of `CopyWorker.execute_empty_file_fs`: ensure the by-hash file exists
(`touch(exist_ok=True)`), then fan out the hardlinks. -/
def execute_empty_file_fs (byHashRoot archiveRoot : List Nat) (blobid : String)
    (pathsToLink : List (List Nat)) (fs : FS) : Option FS :=
  let hashPath := byHashPath byHashRoot blobid
  let fs1 := touchFS fs hashPath
  match create_hardlinks_idempotent hashPath pathsToLink archiveRoot fs1 with
  | none => none
  | some (fs2, _) => some fs2

/-! ## Database model

Rows of the `inode`, `path` and `blobs` tables; timestamps are opaque
naturals (`NOW()` is passed in as a parameter). -/

structure InodeRow where
  medium_hash : String
  ino : Nat
  id : Nat
  size : Nat
  copied : Bool
  blobid : Option String
  by_hash_created : Bool
  mime_type : Option String
  processed_at : Option Nat
  claimed_by : Option String
  claimed_at : Option Nat
  errors : List String
deriving Repr, DecidableEq

structure PathRow where
  medium_hash : String
  ino : Nat
  path : List Nat
  blobid : Option String
  exclude_reason : Option String
deriving Repr, DecidableEq

structure DB where
  inodes : List InodeRow
  paths : List PathRow
  blobs : List (String × Nat)
deriving Repr, DecidableEq

def blobsLookup (bs : List (String × Nat)) (h : String) : Option Nat :=
  (bs.find? (fun e => e.1 == h)).map (fun e => e.2)

/-- The upsert `INSERT INTO blobs (blobid, n_hardlinks) VALUES (%s, %s) ON CONFLICT
(blobid) DO UPDATE SET n_hardlinks = blobs.n_hardlinks + EXCLUDED.n_hardlinks`. -/
def upsertBlobs (blobid : String) (n : Nat) (bs : List (String × Nat)) : List (String × Nat) :=
  if bs.any (fun e => e.1 == blobid) then
    bs.map (fun e => if e.1 == blobid then (e.1, e.2 + n) else e)
  else bs ++ [(blobid, n)]

/-- Model of `CopyWorker.update_db_for_file`: the single per-inode transaction —
update the inode row (blobid, copied, by_hash_created, coalesced
mime_type, processed_at, clear claim), set `blobid` on every path row
of the inode, and upsert the blobs counter. -/
def update_db_for_file (mh : String) (ino : Nat) (hashVal : String) (byHashCreated : Bool)
    (numLinks : Nat) (mime : Option String) (now : Nat) (db : DB) : DB :=
  { inodes := db.inodes.map (fun r =>
      if r.medium_hash = mh ∧ r.ino = ino then
        { r with blobid := some hashVal, copied := true, by_hash_created := byHashCreated,
                 mime_type := match mime with | some m => some m | none => r.mime_type,
                 processed_at := some now, claimed_by := none, claimed_at := none }
      else r),
    paths := db.paths.map (fun p =>
      if p.medium_hash = mh ∧ p.ino = ino then { p with blobid := some hashVal } else p),
    blobs := upsertBlobs hashVal numLinks db.blobs }

inductive FileAction
  | copyNewFile
  | linkExistingFile
  | handleEmptyFile
deriving Repr, DecidableEq

/-- Model of `CopyWorker.execute_plan` for the three file actions: filesystem
step first (producing `by_hash_created_by_this_worker`, which stays
`false` except for a successful new-file move), then
`update_db_for_file(inode_row, blobid, by_hash_created,
len(paths_to_link), mime_type)`.  `none` models a raised error. -/
def execute_plan_file (act : FileAction) (mh : String) (ino : Nat) (blobid : String)
    (pathsToLink : List (List Nat)) (tempFile : List Nat) (mime : Option String)
    (byHashRoot archiveRoot : List Nat) (now : Nat) (fs : FS) (db : DB) :
    Option (FS × DB) :=
  let fsres : Option (FS × Bool) :=
    match act with
    | .copyNewFile =>
      execute_copy_new_file_fs byHashRoot archiveRoot blobid tempFile pathsToLink fs
    | .linkExistingFile =>
      match create_hardlinks_idempotent (byHashPath byHashRoot blobid) pathsToLink
          archiveRoot fs with
      | none => none
      | some (fs1, _) => some (fs1, false)
    | .handleEmptyFile =>
      match execute_empty_file_fs byHashRoot archiveRoot blobid pathsToLink fs with
      | none => none
      | some fs1 => some (fs1, false)
  match fsres with
  | none => none
  | some (fs1, byHashCreated) =>
    some (fs1,
      update_db_for_file mh ino blobid byHashCreated pathsToLink.length mime now db)

/-! Concrete states shared by the executor claims. -/

def bhRootC : List Nat := strCodes "/bh"

def arRootC : List Nat := strCodes "/ar"

def blobC : String := "abcd"

def pathsC : List (List Nat) := [strCodes "/a/x", strCodes "/b/y"]

/-- State after a first run: by-hash file and both archive links exist
and share inode 0. -/
def fsLinkedC : FS :=
  insertFS
    (insertFS (insertFS emptyFS (byHashPath bhRootC blobC) 0)
      (hardlinkTarget arRootC (strCodes "/a/x")) 0)
    (hardlinkTarget arRootC (strCodes "/b/y")) 0

def dbC : DB := { inodes := [], paths := [], blobs := [("abcd", 2)] }

def tempC : List Nat := strCodes "/tmp/9.tmp"

/-- Race-loser state: another worker already placed the by-hash file
(inode 7); our temp file is inode 9. -/
def fsRaceC : FS := insertFS (insertFS emptyFS (byHashPath bhRootC blobC) 7) tempC 9

/-! ## Analyzer (`CopyWorker.analyze_file`) -/

/-- Result of `analyze_file` for a regular file (the `action` key of
the returned plan dict, with the plan's payload). -/
inductive AnalyzeResult
  | handleEmptyFile (blobid : String) (pathsToLink : List (List Nat)) (mime : String)
  | linkExistingFile (blobid : String) (pathsToLink : List (List Nat)) (mime : Option String)
  | copyNewFile (blobid : String) (pathsToLink : List (List Nat)) (mime : Option String)
deriving Repr, DecidableEq

/-- The constant `ntt_copier_strategies.EMPTY_FILE_HASH` (SHA-256 of zero bytes). -/
def EMPTY_FILE_HASH : String :=
  "e3b0c44298fc1c149afbf4c8996fb92427ae41e4649b934ca495991b7852b855"

/-- Model of `CopyWorker.analyze_file`: here `copyAndHash` stands for
`copy_file_to_temp` + `hash_file`, `detectMime` for
`detect_mime_type`, `blobExists` for the `blobs`-table lookup.  The
`size == 0` branch returns before any of them is invoked. -/
def analyze_file (size : Nat) (paths : List (List Nat))
    (copyAndHash : Unit → String) (detectMime : Unit → Option String)
    (blobExists : String → Bool) : AnalyzeResult :=
  if size = 0 then .handleEmptyFile EMPTY_FILE_HASH paths "application/x-empty"
  else
    let hashValue := copyAndHash ()
    let mime := detectMime ()
    if blobExists hashValue then .linkExistingFile hashValue paths mime
    else .copyNewFile hashValue paths mime

/-! ## Claim layer and error handling -/

/-- The `claimed_by` / `claimed_at` biconditional of the data-model
invariant. -/
def claimOk (r : InodeRow) : Prop := r.claimed_by = none ↔ r.claimed_at = none

instance (r : InodeRow) : Decidable (claimOk r) := by unfold claimOk; exact inferInstance

/-- The clause `SET claimed_by = %s, claimed_at = NOW()` of the claim UPDATE. -/
def setClaimRow (worker : String) (now : Nat) (r : InodeRow) : InodeRow :=
  { r with claimed_by := some worker, claimed_at := some now }

/-- Per-failed-inode UPDATE of the batch commit: `claimed_by = NULL,
claimed_at = NULL, errors = array_append(errors, %s)`. -/
def releaseRowWithError (err : String) (r : InodeRow) : InodeRow :=
  { r with claimed_by := none, claimed_at := none, errors := r.errors ++ [err] }

/-- Model of `CopyWorker.mark_max_retries_exceeded`: the one-time startup sweep
`UPDATE inode SET copied = true, claimed_by = 'MAX_RETRIES_EXCEEDED'
WHERE medium_hash = %s AND copied = false AND claimed_by IS NULL AND
array_length(errors, 1) >= 5`. -/
def mark_max_retries_exceeded (mh : String) (inodes : List InodeRow) : List InodeRow :=
  inodes.map (fun r =>
    if r.medium_hash = mh ∧ r.copied = false ∧ r.claimed_by = none ∧ 5 ≤ r.errors.length then
      { r with copied := true, claimed_by := some "MAX_RETRIES_EXCEEDED" }
    else r)

/-- Row filter of the claim queries: `medium_hash = %s AND copied =
false AND claimed_by IS NULL` plus the optional `id >= start_id` probe
bound; `locked` holds the row ids currently locked by other
transactions, skipped by `FOR UPDATE SKIP LOCKED`. -/
def claimEligible (mh : String) (startId : Option Nat) (locked : List Nat) (r : InodeRow) :
    Bool :=
  r.medium_hash == mh && r.copied == false && r.claimed_by.isNone &&
    (match startId with
     | some s => decide (s ≤ r.id)
     | none => true) &&
    !(locked.contains r.id)

/-- The CTE of one claim query: first `batch_size` eligible rows in id
order (the table list is kept in id order). -/
def probeSelect (mh : String) (startId : Option Nat) (locked : List Nat) (batchSize : Nat)
    (inodes : List InodeRow) : List InodeRow :=
  (inodes.filter (claimEligible mh startId locked)).take batchSize

/-- The UPDATE joined on the candidate CTE by the composite primary key
`(medium_hash, ino)`. -/
def applyClaimTo (worker : String) (now : Nat) (sel : List InodeRow)
    (inodes : List InodeRow) : List InodeRow :=
  inodes.map (fun r =>
    if sel.any (fun c => c.medium_hash == r.medium_hash && c.ino == r.ino) then
      setClaimRow worker now r
    else r)

/-- Model of `CopyWorker.fetch_and_claim_batch`: three random probes (start ids
`s1 s2 s3`), stopping at the first that returns rows, then the
sequential fallback without the `id >= start_id` bound; returns the
claimed rows (`RETURNING i.*`) or `none`, together with the updated
table. -/
def fetch_and_claim_batch (mh worker : String) (now batchSize : Nat) (s1 s2 s3 : Nat)
    (locked : List Nat) (inodes : List InodeRow) :
    Option (List InodeRow) × List InodeRow :=
  let p1 := probeSelect mh (some s1) locked batchSize inodes
  if p1 ≠ [] then
    (some (p1.map (setClaimRow worker now)), applyClaimTo worker now p1 inodes)
  else
    let p2 := probeSelect mh (some s2) locked batchSize inodes
    if p2 ≠ [] then
      (some (p2.map (setClaimRow worker now)), applyClaimTo worker now p2 inodes)
    else
      let p3 := probeSelect mh (some s3) locked batchSize inodes
      if p3 ≠ [] then
        (some (p3.map (setClaimRow worker now)), applyClaimTo worker now p3 inodes)
      else
        let pf := probeSelect mh none locked batchSize inodes
        if pf = [] then (none, inodes)
        else (some (pf.map (setClaimRow worker now)), applyClaimTo worker now pf inodes)

/-- Python `len(set(errors[-3:])) == 1` for lists of length at least 3:
the last three entries are identical. -/
def lastThreeIdentical (l : List String) : Bool :=
  match l.reverse with
  | a :: b :: c :: _ => a == b && b == c
  | _ => false

/-- Model of `CopyWorker.mark_inode_excluded`: `SET copied = true, claimed_by =
'EXCLUDED: <reason>', claimed_at = NOW()`. -/
def mark_inode_excluded (reason : Option String) (now : Nat) (r : InodeRow) : InodeRow :=
  let claimedBy := match reason with
    | some rr => "EXCLUDED: " ++ rr
    | none => "EXCLUDED"
  { r with copied := true, claimed_by := some claimedBy, claimed_at := some now }

/-- Model of `CopyWorker.release_claim`: with an error message, append it to
`errors`; if the array then has at least 3 entries and the last three
are identical, mark the inode excluded with reason
`persistent_failure: <msg>` and return; otherwise clear the claim
(guarded by `claimed_by = worker_id`). -/
def release_claim (worker : String) (now : Nat) (errorMsg : Option String) (r : InodeRow) :
    InodeRow :=
  match errorMsg with
  | some msg =>
    let r1 := { r with errors := r.errors ++ [msg] }
    if 3 ≤ r1.errors.length ∧ lastThreeIdentical r1.errors = true then
      mark_inode_excluded (some ("persistent_failure: " ++ msg)) now r1
    else if r1.claimed_by = some worker then
      { r1 with claimed_by := none, claimed_at := none }
    else r1
  | none =>
    if r.claimed_by = some worker then { r with claimed_by := none, claimed_at := none }
    else r

def r0C : InodeRow :=
  { medium_hash := "m", ino := 1, id := 1, size := 0, copied := false, blobid := none,
    by_hash_created := false, mime_type := none, processed_at := none, claimed_by := none,
    claimed_at := none, errors := ["e1", "e1", "e1", "e1", "e1"] }

/-! ## Batch commit (`CopyWorker.process_batch`, steps 4-6) -/

/-- A value of `results_by_inode`: a blob-id string, an error dict, or
`None`. -/
inductive PyResult
  | str (s : String)
  | errDict (etype emsg : String)
  | pyNone
deriving Repr, DecidableEq

def HEX_CHARS : List Char := "0123456789abcdef".toList

/-- Model of `is_sha256_hash_lowercase`: 64 characters, all lowercase hex; a
non-string argument raises `TypeError`, caught and turned into
`False`. -/
def is_sha256_hash_lowercase (r : PyResult) : Bool :=
  match r with
  | .str s => s.length == 64 && s.toList.all (fun c => HEX_CHARS.contains c)
  | _ => false

/-- Lookup `results_by_inode.get((medium_hash, ino))`. -/
def resultFor (results : List ((String × Nat) × PyResult)) (mh : String) (ino : Nat) :
    Option PyResult :=
  (results.find? (fun e => e.1.1 == mh && e.1.2 == ino)).map (fun e => e.2)

/-- Step 4, path arrays: results passing `is_sha256_hash_lowercase`
become `(ino, blob_id)` update pairs for the `path` table. -/
def buildPathUpdates (results : List ((String × Nat) × PyResult)) : List (Nat × String) :=
  results.filterMap (fun e =>
    if is_sha256_hash_lowercase e.2 then
      match e.2 with
      | .str s => some (e.1.2, s)
      | _ => none
    else none)

/-- Step 4, inode success array: claimed rows whose result is a string
(`isinstance(result, str)`). -/
def successUpdates (claimed : List InodeRow)
    (results : List ((String × Nat) × PyResult)) : List (Nat × String) :=
  claimed.filterMap (fun r =>
    match resultFor results r.medium_hash r.ino with
    | some (.str s) => some (r.id, s)
    | _ => none)

/-- Step 4, failed array: error dicts keep their type and message; a
missing or `None` result becomes `UnknownError: No result returned`. -/
def failedUpdates (claimed : List InodeRow)
    (results : List ((String × Nat) × PyResult)) : List (Nat × String × String) :=
  claimed.filterMap (fun r =>
    match resultFor results r.medium_hash r.ino with
    | some (.str _) => none
    | some (.errDict t m) => some (r.id, t, m)
    | some .pyNone => some (r.id, "UnknownError", "No result returned")
    | none => some (r.id, "UnknownError", "No result returned"))

/-- Steps 5-6 of `process_batch`, the batch transaction: `UPDATE path
SET blobid ... WHERE medium_hash = %s AND ino = updates.ino AND
exclude_reason IS NULL`, `UPDATE inode SET copied = true, blobid ...
WHERE id = updates.id AND medium_hash = %s`, and the per-failed-inode
claim release with error append.  No other column is written and no
blobs upsert is issued. -/
def process_batch_commit (mh : String) (claimed : List InodeRow)
    (results : List ((String × Nat) × PyResult)) (db : DB) : DB :=
  let pathUpds := buildPathUpdates results
  let succ := successUpdates claimed results
  let failed := failedUpdates claimed results
  { inodes := db.inodes.map (fun r =>
      match succ.find? (fun u => u.1 == r.id) with
      | some u => if r.medium_hash = mh then { r with copied := true, blobid := some u.2 } else r
      | none =>
        match failed.find? (fun u => u.1 == r.id) with
        | some u => releaseRowWithError (u.2.1 ++ ": " ++ u.2.2) r
        | none => r),
    paths := db.paths.map (fun p =>
      match pathUpds.find? (fun u => u.1 == p.ino) with
      | some u =>
        if p.medium_hash = mh ∧ p.exclude_reason = none then { p with blobid := some u.2 }
        else p
      | none => p),
    blobs := db.blobs }

def hashC : String := "aab0c44298fc1c149afbf4c8996fb92427ae41e4649b934ca495991b7852b855"

def inoSuccC : InodeRow := { r0C with errors := [], claimed_by := some "w1", claimed_at := some 3 }

def pathRowC : PathRow :=
  { medium_hash := "m", ino := 1, path := strCodes "/a/x", blobid := none,
    exclude_reason := none }

def dbBatchC : DB := { inodes := [inoSuccC], paths := [pathRowC], blobs := [] }

def resultsC : List ((String × Nat) × PyResult) := [(("m", 1), .str hashC)]

/-! ## Theorems -/

theorem decodeStep_len (b : Nat) (rest : List Nat) :
    (decodeStep b rest).2.length ≤ rest.length := by
  unfold decodeStep
  repeat' split
  all_goals simp_all
  all_goals omega

theorem enc1_ascii (b : Nat) (h : b < 0x80) : enc1 b = [b] := by
  simp [enc1, h]

theorem enc1_esc (b : Nat) (h1 : 0x80 ≤ b) (h2 : b < 256) :
    enc1 (0xDC00 + b) = [b] := by
  have n1 : ¬(0xDC00 + b < 0x80) := by omega
  have n2 : ¬(0xDC00 + b < 0x800) := by omega
  have n3 : 0xDC00 + b < 0x10000 := by omega
  have n4 : 0xDC80 ≤ 0xDC00 + b ∧ 0xDC00 + b ≤ 0xDCFF := by omega
  simp only [enc1, if_neg n1, if_neg n2, if_pos n3, if_pos n4]
  simp only [List.cons.injEq, and_true]
  omega

theorem enc1_two (b c1 : Nat) (hb1 : 0xC2 ≤ b) (hb2 : b ≤ 0xDF)
    (hc : isCont c1 = true) :
    enc1 ((b - 0xC0) * 64 + (c1 - 0x80)) = [b, c1] := by
  simp only [isCont, Bool.and_eq_true, decide_eq_true_eq] at hc
  obtain ⟨hc1, hc2⟩ := hc
  have n1 : ¬((b - 0xC0) * 64 + (c1 - 0x80) < 0x80) := by omega
  have n2 : (b - 0xC0) * 64 + (c1 - 0x80) < 0x800 := by omega
  simp only [enc1, if_neg n1, if_pos n2]
  simp only [List.cons.injEq, and_true]
  omega

theorem enc1_three (b c1 c2 : Nat) (hb1 : 0xE0 ≤ b) (hb2 : b ≤ 0xEF)
    (h1 : cont3 b c1 = true) (h2 : isCont c2 = true) :
    enc1 ((b - 0xE0) * 4096 + (c1 - 0x80) * 64 + (c2 - 0x80)) = [b, c1, c2] := by
  simp only [isCont, Bool.and_eq_true, decide_eq_true_eq] at h2
  obtain ⟨hc2a, hc2b⟩ := h2
  have hc1 : 0x80 ≤ c1 ∧ c1 ≤ 0xBF ∧ (b = 0xE0 → 0xA0 ≤ c1) ∧ (b = 0xED → c1 ≤ 0x9F) := by
    unfold cont3 isCont at h1
    split at h1
    · simp only [Bool.and_eq_true, decide_eq_true_eq] at h1
      omega
    · split at h1 <;> simp only [Bool.and_eq_true, decide_eq_true_eq] at h1 <;> omega
  obtain ⟨hc1a, hc1b, hc1c, hc1d⟩ := hc1
  have n1 : ¬((b - 0xE0) * 4096 + (c1 - 0x80) * 64 + (c2 - 0x80) < 0x80) := by
    rcases Nat.eq_or_lt_of_le hb1 with h | h
    · have := hc1c h.symm
      omega
    · omega
  have n2 : ¬((b - 0xE0) * 4096 + (c1 - 0x80) * 64 + (c2 - 0x80) < 0x800) := by
    rcases Nat.eq_or_lt_of_le hb1 with h | h
    · have := hc1c h.symm
      omega
    · omega
  have n3 : (b - 0xE0) * 4096 + (c1 - 0x80) * 64 + (c2 - 0x80) < 0x10000 := by omega
  have n4 : ¬(0xDC80 ≤ (b - 0xE0) * 4096 + (c1 - 0x80) * 64 + (c2 - 0x80) ∧
              (b - 0xE0) * 4096 + (c1 - 0x80) * 64 + (c2 - 0x80) ≤ 0xDCFF) := by
    by_cases hed : b = 0xED
    · have := hc1d hed
      subst hed
      omega
    · -- cp / 4096 = b - 0xE0; the 0xDC80..0xDCFF band needs b = 0xED
      omega
  simp only [enc1, if_neg n1, if_neg n2, if_pos n3, if_neg n4]
  simp only [List.cons.injEq, and_true]
  omega

theorem enc1_four (b c1 c2 c3 : Nat) (hb1 : 0xF0 ≤ b) (hb2 : b ≤ 0xF4)
    (h1 : cont4 b c1 = true) (h2 : isCont c2 = true) (h3 : isCont c3 = true) :
    enc1 ((b - 0xF0) * 262144 + (c1 - 0x80) * 4096 + (c2 - 0x80) * 64 + (c3 - 0x80)) =
      [b, c1, c2, c3] := by
  simp only [isCont, Bool.and_eq_true, decide_eq_true_eq] at h2 h3
  obtain ⟨hc2a, hc2b⟩ := h2
  obtain ⟨hc3a, hc3b⟩ := h3
  have hc1 : 0x80 ≤ c1 ∧ c1 ≤ 0xBF ∧ (b = 0xF0 → 0x90 ≤ c1) ∧ (b = 0xF4 → c1 ≤ 0x8F) := by
    unfold cont4 isCont at h1
    split at h1
    · simp only [Bool.and_eq_true, decide_eq_true_eq] at h1
      omega
    · split at h1 <;> simp only [Bool.and_eq_true, decide_eq_true_eq] at h1 <;> omega
  obtain ⟨hc1a, hc1b, hc1c, hc1d⟩ := hc1
  have n1 : ¬((b - 0xF0) * 262144 + (c1 - 0x80) * 4096 + (c2 - 0x80) * 64 + (c3 - 0x80) < 0x80) := by
    rcases Nat.eq_or_lt_of_le hb1 with h | h
    · have := hc1c h.symm
      omega
    · omega
  have n2 : ¬((b - 0xF0) * 262144 + (c1 - 0x80) * 4096 + (c2 - 0x80) * 64 + (c3 - 0x80) < 0x800) := by
    rcases Nat.eq_or_lt_of_le hb1 with h | h
    · have := hc1c h.symm
      omega
    · omega
  have n3 : ¬((b - 0xF0) * 262144 + (c1 - 0x80) * 4096 + (c2 - 0x80) * 64 + (c3 - 0x80) < 0x10000) := by
    rcases Nat.eq_or_lt_of_le hb1 with h | h
    · have := hc1c h.symm
      omega
    · omega
  simp only [enc1, if_neg n1, if_neg n2, if_neg n3]
  simp only [List.cons.injEq, and_true]
  omega

/-- Round-trip law of the surrogateescape codec: re-encoding the decoded
string yields exactly the original byte string. -/
theorem encode_decode_aux :
    ∀ n, ∀ l : List Nat, l.length ≤ n → (∀ x ∈ l, x < 256) → encodeSE (decodeFuel n l) = l := by
  intro n
  induction n with
  | zero =>
    intro l hl h
    cases l with
    | nil => rfl
    | cons b rest => simp at hl
  | succ n ih =>
    intro l hl h
    cases l with
    | nil => rfl
    | cons b rest =>
      have hb : b < 256 := h b (by simp)
      have hrest : ∀ x ∈ rest, x < 256 := fun x hx => h x (by simp [hx])
      have hlen : rest.length ≤ n := by simp at hl; omega
      rw [decodeFuel]
      by_cases h1 : b < 0x80
      · have hstep : decodeStep b rest = (b, rest) := by simp [decodeStep, h1]
        rw [hstep]
        rw [encodeSE, enc1_ascii b h1, ih rest hlen hrest]
        rfl
      · by_cases h2 : 0xC2 ≤ b ∧ b ≤ 0xDF
        · cases rest with
          | nil =>
            have hstep : decodeStep b [] = (0xDC00 + b, []) := by
              simp [decodeStep, h1, h2]
            rw [hstep, encodeSE, enc1_esc b (by omega) hb, ih [] (by simp) (by simp)]
            rfl
          | cons c1 rest2 =>
            by_cases hc : isCont c1 = true
            · have hstep : decodeStep b (c1 :: rest2) = ((b - 0xC0) * 64 + (c1 - 0x80), rest2) := by
                simp [decodeStep, h1, h2, hc]
              have hlen2 : rest2.length ≤ n := by simp at hlen ⊢; omega
              rw [hstep, encodeSE, enc1_two b c1 h2.1 h2.2 hc,
                ih rest2 hlen2 (fun x hx => hrest x (by simp [hx]))]
              rfl
            · have hstep : decodeStep b (c1 :: rest2) = (0xDC00 + b, c1 :: rest2) := by
                simp [decodeStep, h1, h2, hc]
              rw [hstep, encodeSE, enc1_esc b (by omega) hb, ih (c1 :: rest2) hlen hrest]
              rfl
        · by_cases h3 : 0xE0 ≤ b ∧ b ≤ 0xEF
          · match rest, hrest, hlen with
            | [], hrest, hlen =>
              have hstep : decodeStep b [] = (0xDC00 + b, []) := by
                simp [decodeStep, h1, h2, h3]
              rw [hstep, encodeSE, enc1_esc b (by omega) hb, ih [] (by simp) (by simp)]
              rfl
            | [c1], hrest, hlen =>
              have hstep : decodeStep b [c1] = (0xDC00 + b, [c1]) := by
                simp [decodeStep, h1, h2, h3]
              rw [hstep, encodeSE, enc1_esc b (by omega) hb, ih [c1] hlen hrest]
              rfl
            | c1 :: c2 :: rest3, hrest, hlen =>
              by_cases hc : (cont3 b c1 && isCont c2) = true
              · have hstep : decodeStep b (c1 :: c2 :: rest3) =
                    ((b - 0xE0) * 4096 + (c1 - 0x80) * 64 + (c2 - 0x80), rest3) := by
                  simp [decodeStep, h1, h2, h3, hc]
                have hlen3 : rest3.length ≤ n := by simp at hlen ⊢; omega
                have hcc := hc
                simp only [Bool.and_eq_true] at hcc
                rw [hstep, encodeSE, enc1_three b c1 c2 h3.1 h3.2 hcc.1 hcc.2,
                  ih rest3 hlen3 (fun x hx => hrest x (by simp [hx]))]
                rfl
              · have hstep : decodeStep b (c1 :: c2 :: rest3) = (0xDC00 + b, c1 :: c2 :: rest3) := by
                  simp [decodeStep, h1, h2, h3, hc]
                rw [hstep, encodeSE, enc1_esc b (by omega) hb,
                  ih (c1 :: c2 :: rest3) hlen hrest]
                rfl
          · by_cases h4 : 0xF0 ≤ b ∧ b ≤ 0xF4
            · match rest, hrest, hlen with
              | [], hrest, hlen =>
                have hstep : decodeStep b [] = (0xDC00 + b, []) := by
                  simp [decodeStep, h1, h2, h3, h4]
                rw [hstep, encodeSE, enc1_esc b (by omega) hb, ih [] (by simp) (by simp)]
                rfl
              | [c1], hrest, hlen =>
                have hstep : decodeStep b [c1] = (0xDC00 + b, [c1]) := by
                  simp [decodeStep, h1, h2, h3, h4]
                rw [hstep, encodeSE, enc1_esc b (by omega) hb, ih [c1] hlen hrest]
                rfl
              | [c1, c2], hrest, hlen =>
                have hstep : decodeStep b [c1, c2] = (0xDC00 + b, [c1, c2]) := by
                  simp [decodeStep, h1, h2, h3, h4]
                rw [hstep, encodeSE, enc1_esc b (by omega) hb, ih [c1, c2] hlen hrest]
                rfl
              | c1 :: c2 :: c3 :: rest4, hrest, hlen =>
                by_cases hc : (cont4 b c1 && isCont c2 && isCont c3) = true
                · have hstep : decodeStep b (c1 :: c2 :: c3 :: rest4) =
                      ((b - 0xF0) * 262144 + (c1 - 0x80) * 4096 + (c2 - 0x80) * 64 + (c3 - 0x80),
                        rest4) := by
                    simp [decodeStep, h1, h2, h3, h4, hc]
                  have hlen4 : rest4.length ≤ n := by simp at hlen ⊢; omega
                  have hcc := hc
                  simp only [Bool.and_eq_true] at hcc
                  rw [hstep, encodeSE, enc1_four b c1 c2 c3 h4.1 h4.2 hcc.1.1 hcc.1.2 hcc.2,
                    ih rest4 hlen4 (fun x hx => hrest x (by simp [hx]))]
                  rfl
                · have hstep : decodeStep b (c1 :: c2 :: c3 :: rest4) =
                      (0xDC00 + b, c1 :: c2 :: c3 :: rest4) := by
                    simp [decodeStep, h1, h2, h3, h4, hc]
                  rw [hstep, encodeSE, enc1_esc b (by omega) hb,
                    ih (c1 :: c2 :: c3 :: rest4) hlen hrest]
                  rfl
            · have hstep : decodeStep b rest = (0xDC00 + b, rest) := by
                simp [decodeStep, h1, h2, h3, h4]
              rw [hstep, encodeSE, enc1_esc b (by omega) hb, ih rest hlen hrest]
              rfl

/-- Round-trip: `encode(decode(bytes)) = bytes` for the surrogateescape
codec, for every byte string. -/
theorem encode_decode (l : List Nat) (h : ∀ x ∈ l, x < 256) :
    encodeSE (decodeSE l) = l :=
  encode_decode_aux l.length l le_rfl h

/-- C4, counterexample: `sanitize_path` is not injective, hence decoded
paths cannot always re-encode to the original bytes.  Two collisions:
the byte strings `a\rb` (with a literal two-byte backslash-r escape)
and `a<CR>b` are distinct but decode to the same filesystem path, and
so are `/a//b` and `/a/b` (the `Path()` normalization collapses the
doubled slash). -/
theorem c4_counterexample :
    sanitize_path [0x61, 0x5C, 0x72, 0x62] = sanitize_path [0x61, 0x0D, 0x62] ∧
    [0x61, 0x5C, 0x72, 0x62] ≠ [0x61, 0x0D, 0x62] ∧
    sanitize_path [0x2F, 0x61, 0x2F, 0x2F, 0x62] = sanitize_path [0x2F, 0x61, 0x2F, 0x62] ∧
    [0x2F, 0x61, 0x2F, 0x2F, 0x62] ≠ [0x2F, 0x61, 0x2F, 0x62] := by
  refine ⟨rfl, by decide, rfl, by decide⟩

/-- C4, amended: for every path byte string whose decoded form contains
no literal backslash-r / backslash-n escape sequence (so the escape
substitution of `sanitize_path` is a no-op on it) and is already in
POSIX-normal form (no empty or single-dot segments to collapse, no
trailing slash — so the `Path()` normalization is a no-op on it too),
re-encoding the decoded filesystem path yields exactly the original
bytes, with no case-folding.  Outside that domain decoding is not
injective: both the escape substitution and the `Path()` normalization
collapse distinct byte strings. -/
theorem c4_round_trip (b : List Nat) (hb : ∀ x ∈ b, x < 256)
    (hr : replacePair 0x72 0x0D (decodeSE b) = decodeSE b)
    (hn : replacePair 0x6E 0x0A (decodeSE b) = decodeSE b)
    (hnorm : posixPathStr (decodeSE b) = decodeSE b) :
    encodeSE (sanitize_path b) = b := by
  unfold sanitize_path sanitizeStr
  rw [hr, hn, hnorm]
  exact encode_decode b hb

/-- C4 witness: the round-trip law evaluated on a concrete byte string
containing a non-UTF-8 byte (`0xFF`) and a slash. -/
theorem c4_round_trip_witness :
    encodeSE (sanitize_path [0x61, 0xFF, 0x2F, 0x62]) = [0x61, 0xFF, 0x2F, 0x62] :=
  c4_round_trip [0x61, 0xFF, 0x2F, 0x62] (by decide) (by rfl) (by rfl) (by rfl)

/-! Support lemmas for the hardlink fan-out. -/

theorem insertFS_entries (fs : FS) (p : List Nat) (i : Nat) (q : List Nat) :
    (insertFS fs p i).entries q = if q = p then some i else fs.entries q := rfl

theorem eraseFS_entries (fs : FS) (p q : List Nat) :
    (eraseFS fs p).entries q = if q = p then none else fs.entries q := rfl

theorem insertFS_isize (fs : FS) (p : List Nat) (i : Nat) : (insertFS fs p i).isize = fs.isize :=
  rfl

theorem eraseFS_isize (fs : FS) (p : List Nat) : (eraseFS fs p).isize = fs.isize := rfl

theorem linkOne_entries_self (hashIno : Nat) (root : List Nat) (st : FS × Nat) (p : List Nat) :
    ((linkOne hashIno root st p).1).entries (hardlinkTarget root p) = some hashIno := by
  unfold linkOne
  cases hst : st.1.entries (hardlinkTarget root p) with
  | none => simp [hst, insertFS_entries]
  | some ino =>
    by_cases hi : ino = hashIno
    · simp [hst, hi]
    · simp [hst, hi, insertFS_entries]

theorem linkOne_entries_keep (hashIno : Nat) (root : List Nat) (st : FS × Nat)
    (p x : List Nat) (hx : st.1.entries x = some hashIno) :
    ((linkOne hashIno root st p).1).entries x = some hashIno := by
  unfold linkOne
  cases hst : st.1.entries (hardlinkTarget root p) with
  | none =>
    simp only [hst]
    rw [insertFS_entries]
    split
    · rfl
    · exact hx
  | some ino =>
    by_cases hi : ino = hashIno
    · simp only [hst, hi]
      simpa using hx
    · by_cases hxt : x = hardlinkTarget root p
      · simp [hst, hi, insertFS_entries, hxt]
      · simp [hst, hi, insertFS_entries, eraseFS_entries, hxt, hx]

theorem linkOne_entries_other (hashIno : Nat) (root : List Nat) (st : FS × Nat)
    (p x : List Nat) (hne : hardlinkTarget root p ≠ x) :
    ((linkOne hashIno root st p).1).entries x = st.1.entries x := by
  unfold linkOne
  have hxt : x ≠ hardlinkTarget root p := fun hh => hne hh.symm
  cases hst : st.1.entries (hardlinkTarget root p) with
  | none =>
    simp only [hst]
    rw [insertFS_entries, if_neg hxt]
  | some ino =>
    by_cases hi : ino = hashIno
    · simp [hst, hi]
    · simp [hst, hi, insertFS_entries, eraseFS_entries, hxt]

theorem linkOne_isize (hashIno : Nat) (root : List Nat) (st : FS × Nat) (p : List Nat) :
    ((linkOne hashIno root st p).1).isize = st.1.isize := by
  unfold linkOne
  cases hst : st.1.entries (hardlinkTarget root p) with
  | none => simp [hst, insertFS_isize]
  | some ino =>
    by_cases hi : ino = hashIno
    · simp [hst, hi]
    · simp [hst, hi, insertFS_isize, eraseFS_isize]

theorem foldl_linkOne_keep (hashIno : Nat) (root : List Nat) :
    ∀ (ps : List (List Nat)) (st : FS × Nat) (x : List Nat),
      st.1.entries x = some hashIno →
      ((ps.foldl (linkOne hashIno root) st).1).entries x = some hashIno := by
  intro ps
  induction ps with
  | nil => intro st x hx; exact hx
  | cons p t ih =>
    intro st x hx
    exact ih (linkOne hashIno root st p) x (linkOne_entries_keep hashIno root st p x hx)

theorem foldl_linkOne_post (hashIno : Nat) (root : List Nat) :
    ∀ (ps : List (List Nat)) (st : FS × Nat) (p : List Nat), p ∈ ps →
      ((ps.foldl (linkOne hashIno root) st).1).entries (hardlinkTarget root p) = some hashIno := by
  intro ps
  induction ps with
  | nil => intro st p hp; simp at hp
  | cons q t ih =>
    intro st p hp
    rcases List.mem_cons.mp hp with hq | ht
    · subst hq
      exact foldl_linkOne_keep hashIno root t (linkOne hashIno root st p) _
        (linkOne_entries_self hashIno root st p)
    · exact ih (linkOne hashIno root st q) p ht

theorem foldl_linkOne_other (hashIno : Nat) (root : List Nat) :
    ∀ (ps : List (List Nat)) (st : FS × Nat) (x : List Nat),
      (∀ p ∈ ps, hardlinkTarget root p ≠ x) →
      ((ps.foldl (linkOne hashIno root) st).1).entries x = st.1.entries x := by
  intro ps
  induction ps with
  | nil => intro st x _; rfl
  | cons q t ih =>
    intro st x hx
    rw [List.foldl_cons, ih (linkOne hashIno root st q) x (fun p hp => hx p (by simp [hp])),
      linkOne_entries_other hashIno root st q x (hx q (by simp))]

theorem foldl_linkOne_isize (hashIno : Nat) (root : List Nat) :
    ∀ (ps : List (List Nat)) (st : FS × Nat),
      ((ps.foldl (linkOne hashIno root) st).1).isize = st.1.isize := by
  intro ps
  induction ps with
  | nil => intro st; rfl
  | cons q t ih =>
    intro st
    rw [List.foldl_cons, ih (linkOne hashIno root st q), linkOne_isize hashIno root st q]

theorem foldl_linkOne_skip (hashIno : Nat) (root : List Nat) :
    ∀ (ps : List (List Nat)) (fs : FS),
      (∀ p ∈ ps, fs.entries (hardlinkTarget root p) = some hashIno) →
      ps.foldl (linkOne hashIno root) (fs, 0) = (fs, 0) := by
  intro ps
  induction ps with
  | nil => intro fs _; rfl
  | cons q t ih =>
    intro fs hall
    have hq : linkOne hashIno root (fs, 0) q = (fs, 0) := by
      unfold linkOne
      simp [hall q (by simp)]
    rw [List.foldl_cons, hq, ih fs (fun p hp => hall p (by simp [hp]))]

/-- Second-run no-op: when the by-hash file exists and every target
archive path is already hardlinked to its inode, the fan-out leaves the
filesystem unchanged and reports zero links created. -/
theorem create_hardlinks_idempotent_noop (hashPath : List Nat) (ps : List (List Nat))
    (root : List Nat) (fs : FS) (hashIno : Nat)
    (hh : fs.entries hashPath = some hashIno)
    (hall : ∀ p ∈ ps, fs.entries (hardlinkTarget root p) = some hashIno) :
    create_hardlinks_idempotent hashPath ps root fs = some (fs, 0) := by
  unfold create_hardlinks_idempotent
  by_cases hps : ps = []
  · simp [hps]
  · simp only [hps, if_neg, hh]
    rw [foldl_linkOne_skip hashIno root ps fs hall]
    simp [hps]

theorem any_of_find {α : Type} (p : α → Bool) :
    ∀ (l : List α) (a : α), l.find? p = some a → l.any p = true := by
  intro l
  induction l with
  | nil => intro a h; simp at h
  | cons x t ih =>
    intro a h
    by_cases hx : p x = true
    · simp [List.any_cons, hx]
    · have hx2 : p x = false := by simpa using hx
      simp only [List.find?_cons, hx2] at h
      simp [List.any_cons, hx2, ih a h]

theorem find_bump (blobid : String) (n : Nat) :
    ∀ (bs : List (String × Nat)) (e : String × Nat),
      bs.find? (fun x => x.1 == blobid) = some e →
      (bs.map (fun x => if x.1 == blobid then (x.1, x.2 + n) else x)).find?
          (fun x => x.1 == blobid) = some (e.1, e.2 + n) := by
  intro bs
  induction bs with
  | nil => intro e h; simp at h
  | cons a t ih =>
    intro e h
    by_cases hah : (a.1 == blobid) = true
    · simp only [List.find?_cons, hah] at h
      have hea : a = e := Option.some.inj h
      subst hea
      simp only [List.map_cons, if_pos hah]
      rw [List.find?_cons]
      simp [hah]
    · have hah2 : (a.1 == blobid) = false := by simpa using hah
      simp only [List.find?_cons, hah2] at h
      simp only [List.map_cons, if_neg hah]
      rw [List.find?_cons]
      simp only [hah2]
      exact ih e h

theorem upsertBlobs_present (blobid : String) (n : Nat) (bs : List (String × Nat)) (v : Nat)
    (hv : blobsLookup bs blobid = some v) :
    blobsLookup (upsertBlobs blobid n bs) blobid = some (v + n) := by
  unfold blobsLookup at hv
  rcases hfind : bs.find? (fun e => e.1 == blobid) with _ | e
  · rw [hfind] at hv
    simp at hv
  · rw [hfind] at hv
    simp at hv
    unfold upsertBlobs
    rw [if_pos (any_of_find _ bs e hfind)]
    unfold blobsLookup
    rw [find_bump blobid n bs e hfind]
    simp [hv]

theorem touchFS_existing (fs : FS) (p : List Nat) (i : Nat) (h : fs.entries p = some i) :
    touchFS fs p = fs := by
  unfold touchFS
  simp [h]

theorem touchFS_none (fs : FS) (p : List Nat) (h : fs.entries p = none) :
    (touchFS fs p).entries p = some fs.nextIno ∧
    (touchFS fs p).isize fs.nextIno = some 0 := by
  unfold touchFS
  simp [h]

/-- C1, counterexample: re-running `execute_plan` over an inode whose
archive links all already exist creates 0 hardlinks, yet the
`n_hardlinks` upsert adds `len(paths_to_link)` = 2, not the 0 links
actually created: `execute_plan` passes `len(plan['paths_to_link'])`
to `update_db_for_file` and discards the created count returned by
`create_hardlinks_idempotent`. -/
theorem c1_counterexample :
    (create_hardlinks_idempotent (byHashPath bhRootC blobC) pathsC arRootC fsLinkedC).map
        (fun r => r.2) = some 0 ∧
    (execute_plan_file .linkExistingFile "m" 1 blobC pathsC [] none bhRootC arRootC 7
        fsLinkedC dbC).map (fun r => r.2.blobs) = some [("abcd", 4)] ∧
    (4 : Nat) ≠ 2 + 0 := by
  refine ⟨rfl, rfl, by decide⟩

/-- C1, amended: re-running the worker over a claimed inode whose
by-hash file and archive links already all exist is filesystem-
idempotent — `create_hardlinks_idempotent` creates 0 links and leaves
the filesystem unchanged, for `link_existing_file` and
`handle_empty_file` alike — but the `n_hardlinks` upsert of the
re-run's DB transaction adds `len(paths_to_link)`, the plan's path
count, regardless of the number of links actually created. -/
theorem c1_amended (mh : String) (ino : Nat) (blobid : String) (paths : List (List Nat))
    (tmp : List Nat) (mime : Option String) (bh ar : List Nat) (now : Nat)
    (fs : FS) (db : DB) (hashIno v : Nat)
    (hh : fs.entries (byHashPath bh blobid) = some hashIno)
    (hall : ∀ p ∈ paths, fs.entries (hardlinkTarget ar p) = some hashIno)
    (hv : blobsLookup db.blobs blobid = some v) :
    create_hardlinks_idempotent (byHashPath bh blobid) paths ar fs = some (fs, 0) ∧
    execute_plan_file .linkExistingFile mh ino blobid paths tmp mime bh ar now fs db =
      some (fs, update_db_for_file mh ino blobid false paths.length mime now db) ∧
    execute_plan_file .handleEmptyFile mh ino blobid paths tmp mime bh ar now fs db =
      some (fs, update_db_for_file mh ino blobid false paths.length mime now db) ∧
    blobsLookup (update_db_for_file mh ino blobid false paths.length mime now db).blobs
        blobid = some (v + paths.length) := by
  have hnoop := create_hardlinks_idempotent_noop (byHashPath bh blobid) paths ar fs hashIno hh hall
  refine ⟨hnoop, ?_, ?_, ?_⟩
  · unfold execute_plan_file
    rw [hnoop]
  · have he : execute_empty_file_fs bh ar blobid paths fs = some fs := by
      simp only [execute_empty_file_fs]
      rw [touchFS_existing fs (byHashPath bh blobid) hashIno hh, hnoop]
    unfold execute_plan_file
    rw [he]
  · exact upsertBlobs_present blobid paths.length db.blobs v hv

/-- C1 witness: the amended statement evaluated on the concrete
already-linked state. -/
theorem c1_amended_witness :
    create_hardlinks_idempotent (byHashPath bhRootC blobC) pathsC arRootC fsLinkedC =
      some (fsLinkedC, 0) ∧
    execute_plan_file .linkExistingFile "m" 1 blobC pathsC [] none bhRootC arRootC 7
        fsLinkedC dbC =
      some (fsLinkedC, update_db_for_file "m" 1 blobC false pathsC.length none 7 dbC) ∧
    execute_plan_file .handleEmptyFile "m" 1 blobC pathsC [] none bhRootC arRootC 7
        fsLinkedC dbC =
      some (fsLinkedC, update_db_for_file "m" 1 blobC false pathsC.length none 7 dbC) ∧
    blobsLookup (update_db_for_file "m" 1 blobC false pathsC.length none 7 dbC).blobs blobC =
      some (2 + pathsC.length) :=
  c1_amended "m" 1 blobC pathsC [] none bhRootC arRootC 7 fsLinkedC dbC 0 2
    (by rfl) (by decide) (by rfl)

/-- C3: in `execute_copy_new_file_fs`, when the by-hash destination
already exists, POSIX `shutil.move` (`os.rename`, or the `copy2` +
`unlink` fallback) silently replaces it and never raises
`FileExistsError`, so the code returns `by_hash_created = True` and the
previously existing by-hash content is overwritten — contrary to the
dead `except FileExistsError` handler the source relies on. -/
theorem c3_overwrite_bug :
    fsRaceC.entries (byHashPath bhRootC blobC) = some 7 ∧
    (execute_copy_new_file_fs bhRootC arRootC blobC tempC pathsC fsRaceC).map
        (fun r => r.2) = some true ∧
    (execute_copy_new_file_fs bhRootC arRootC blobC tempC pathsC fsRaceC).map
        (fun r => r.1.entries (byHashPath bhRootC blobC)) = some (some 9) ∧
    (∀ (fs : FS) (src dst : List Nat),
      shutil_move src dst fs = MoveOutcome.srcMissing ∨
      ∃ fs1, shutil_move src dst fs = MoveOutcome.moved fs1) := by
  refine ⟨rfl, rfl, rfl, ?_⟩
  intro fs src dst
  unfold shutil_move
  cases h : fs.entries src with
  | none => exact Or.inl rfl
  | some ino => exact Or.inr ⟨insertFS (eraseFS fs src) dst ino, rfl⟩

/-- C8: for a regular file of size 0 the analyzer emits
`handle_empty_file` with the compile-time empty digest and mime
`application/x-empty`, independently of the copy/hash/mime/blob oracles
(so no byte of the source is read or hashed); the execution step places
a zero-length by-hash file at `<by_hash>/e3/b0/<digest>` and hardlinks
every target path to it. -/
theorem c8_empty_short_circuit (paths : List (List Nat))
    (ch ch2 : Unit → String) (dm dm2 : Unit → Option String) (bx bx2 : String → Bool) :
    analyze_file 0 paths ch dm bx =
      .handleEmptyFile EMPTY_FILE_HASH paths "application/x-empty" ∧
    analyze_file 0 paths ch dm bx = analyze_file 0 paths ch2 dm2 bx2 ∧
    EMPTY_FILE_HASH =
      "e3b0c44298fc1c149afbf4c8996fb92427ae41e4649b934ca495991b7852b855" ∧
    (∀ root : List Nat, byHashPath root EMPTY_FILE_HASH =
      joinPath (joinPath (joinPath root (strCodes "e3")) (strCodes "b0"))
        (strCodes EMPTY_FILE_HASH)) ∧
    (∀ (bh ar : List Nat) (fs : FS),
      fs.entries (byHashPath bh EMPTY_FILE_HASH) = none →
      (∀ p ∈ paths, hardlinkTarget ar p ≠ byHashPath bh EMPTY_FILE_HASH) →
      paths ≠ [] →
      ∃ fs2, execute_empty_file_fs bh ar EMPTY_FILE_HASH paths fs = some fs2 ∧
        fs2.entries (byHashPath bh EMPTY_FILE_HASH) = some fs.nextIno ∧
        fs2.isize fs.nextIno = some 0 ∧
        ∀ p ∈ paths, fs2.entries (hardlinkTarget ar p) = some fs.nextIno) := by
  refine ⟨by simp [analyze_file], by simp [analyze_file], rfl, ?_, ?_⟩
  · intro root
    have h1 : (strCodes EMPTY_FILE_HASH).take 2 = strCodes "e3" := by rfl
    have h2 : ((strCodes EMPTY_FILE_HASH).drop 2).take 2 = strCodes "b0" := by rfl
    unfold byHashPath
    rw [h1, h2]
  · intro bh ar fs hnone hsep hne
    have ht := touchFS_none fs (byHashPath bh EMPTY_FILE_HASH) hnone
    have hch : create_hardlinks_idempotent (byHashPath bh EMPTY_FILE_HASH) paths ar
        (touchFS fs (byHashPath bh EMPTY_FILE_HASH)) =
        some (paths.foldl (linkOne fs.nextIno ar)
          (touchFS fs (byHashPath bh EMPTY_FILE_HASH), 0)) := by
      unfold create_hardlinks_idempotent
      rw [if_neg hne, ht.1]
    refine ⟨(paths.foldl (linkOne fs.nextIno ar)
        (touchFS fs (byHashPath bh EMPTY_FILE_HASH), 0)).1, ?_, ?_, ?_, ?_⟩
    · simp only [execute_empty_file_fs]
      rw [hch]
    · exact foldl_linkOne_keep fs.nextIno ar paths _ _ ht.1
    · rw [foldl_linkOne_isize]
      exact ht.2
    · intro p hp
      exact foldl_linkOne_post fs.nextIno ar paths _ p hp

/-- C8 witness: the empty-file execution evaluated on the concrete
empty filesystem with one target path `/empty`. -/
theorem c8_empty_short_circuit_witness :
    ∃ fs2, execute_empty_file_fs bhRootC arRootC EMPTY_FILE_HASH [strCodes "/empty"]
        emptyFS = some fs2 ∧
      fs2.entries (byHashPath bhRootC EMPTY_FILE_HASH) = some emptyFS.nextIno ∧
      fs2.isize emptyFS.nextIno = some 0 ∧
      ∀ p ∈ [strCodes "/empty"], fs2.entries (hardlinkTarget arRootC p) =
        some emptyFS.nextIno :=
  (c8_empty_short_circuit [strCodes "/empty"] (fun _ => "zz") (fun _ => "zz")
    (fun _ => none) (fun _ => none) (fun _ => false) (fun _ => false)).2.2.2.2
    bhRootC arRootC emptyFS (by rfl) (by decide) (by decide)

theorem probeSelect_length (mh : String) (startId : Option Nat) (locked : List Nat)
    (batchSize : Nat) (inodes : List InodeRow) :
    (probeSelect mh startId locked batchSize inodes).length ≤ batchSize := by
  unfold probeSelect
  rw [List.length_take]
  exact Nat.min_le_left _ _

theorem probeSelect_sound (mh : String) (startId : Option Nat) (locked : List Nat)
    (batchSize : Nat) (inodes : List InodeRow) (r : InodeRow)
    (hr : r ∈ probeSelect mh startId locked batchSize inodes) :
    r ∈ inodes ∧ r.medium_hash = mh ∧ r.copied = false ∧ r.claimed_by = none := by
  unfold probeSelect at hr
  have hr2 := List.mem_of_mem_take hr
  have hmem := List.mem_filter.mp hr2
  have he := hmem.2
  simp only [claimEligible, Bool.and_eq_true, beq_iff_eq, Option.isNone_iff_eq_none,
    Bool.not_eq_true] at he
  exact ⟨hmem.1, he.1.1.1.1, he.1.1.1.2, he.1.1.2⟩

/-- C5, counterexample: the startup sweep `mark_max_retries_exceeded`
sets `claimed_by = 'MAX_RETRIES_EXCEEDED'` but does not touch
`claimed_at`, so on a previously unclaimed row it leaves `claimed_by`
non-null with `claimed_at` null, breaking the biconditional the claim
asserts for every claim-mutating operation. -/
theorem c5_counterexample :
    claimOk r0C ∧
    mark_max_retries_exceeded "m" [r0C] =
      [{ r0C with copied := true, claimed_by := some "MAX_RETRIES_EXCEEDED" }] ∧
    ¬ claimOk { r0C with copied := true, claimed_by := some "MAX_RETRIES_EXCEEDED" } := by
  refine ⟨by decide, by decide, by decide⟩

/-- C5, amended: the batch claim, the batch-failure release, the
single-inode `release_claim` (all branches) and `mark_inode_excluded`
preserve the `claimed_by IS NULL ↔ claimed_at IS NULL` biconditional;
the startup sweep is the exception — it sets `claimed_by` non-null
while leaving `claimed_at` as it was. -/
theorem c5_amended (worker err : String) (reason : Option String) (now : Nat)
    (msg : Option String) (r : InodeRow) (h : claimOk r) :
    claimOk (setClaimRow worker now r) ∧
    claimOk (releaseRowWithError err r) ∧
    claimOk (release_claim worker now msg r) ∧
    claimOk (mark_inode_excluded reason now r) := by
  refine ⟨by simp [setClaimRow, claimOk], by simp [releaseRowWithError, claimOk], ?_, ?_⟩
  · cases msg with
    | none =>
      unfold release_claim
      dsimp only
      split
      · simp [claimOk]
      · exact h
    | some m =>
      unfold release_claim
      dsimp only
      split
      · simp [mark_inode_excluded, claimOk]
      · split
        · simp [claimOk]
        · simpa [claimOk] using h
  · unfold mark_inode_excluded
    cases reason <;> simp [claimOk]

/-- C5 witness: the amended statement evaluated on a concrete claimed
row. -/
theorem c5_amended_witness :
    claimOk (setClaimRow "w1" 9 { r0C with claimed_by := some "w1", claimed_at := some 3 }) ∧
    claimOk (releaseRowWithError "E: x"
      { r0C with claimed_by := some "w1", claimed_at := some 3 }) ∧
    claimOk (release_claim "w1" 9 (some "E: x")
      { r0C with claimed_by := some "w1", claimed_at := some 3 }) ∧
    claimOk (mark_inode_excluded (some "all_paths_excluded") 9
      { r0C with claimed_by := some "w1", claimed_at := some 3 }) :=
  c5_amended "w1" "E: x" (some "all_paths_excluded") 9 (some "E: x")
    { r0C with claimed_by := some "w1", claimed_at := some 3 } (by decide)

/-- C6: the batch claim makes at most three probes with the given
start ids, stops at the first non-empty probe, falls back to the
unbounded sequential query only when all three probes return nothing,
and returns `none` exactly when the fallback is also empty; every
returned row is an eligible row (`copied = false`, `claimed_by IS
NULL`, right medium) with `claimed_by` and `claimed_at` set, at most
`batch_size` of them. -/
theorem c6_claim_batch (mh worker : String) (now batchSize s1 s2 s3 : Nat)
    (locked : List Nat) (inodes : List InodeRow) :
    ((fetch_and_claim_batch mh worker now batchSize s1 s2 s3 locked inodes).1 = none ↔
      (probeSelect mh (some s1) locked batchSize inodes = [] ∧
       probeSelect mh (some s2) locked batchSize inodes = [] ∧
       probeSelect mh (some s3) locked batchSize inodes = [] ∧
       probeSelect mh none locked batchSize inodes = [])) ∧
    (probeSelect mh (some s1) locked batchSize inodes ≠ [] →
      fetch_and_claim_batch mh worker now batchSize s1 s2 s3 locked inodes =
        (some ((probeSelect mh (some s1) locked batchSize inodes).map (setClaimRow worker now)),
         applyClaimTo worker now (probeSelect mh (some s1) locked batchSize inodes) inodes)) ∧
    (probeSelect mh (some s1) locked batchSize inodes = [] →
      probeSelect mh (some s2) locked batchSize inodes = [] →
      probeSelect mh (some s3) locked batchSize inodes = [] →
      probeSelect mh none locked batchSize inodes ≠ [] →
      fetch_and_claim_batch mh worker now batchSize s1 s2 s3 locked inodes =
        (some ((probeSelect mh none locked batchSize inodes).map (setClaimRow worker now)),
         applyClaimTo worker now (probeSelect mh none locked batchSize inodes) inodes)) ∧
    (∀ l, (fetch_and_claim_batch mh worker now batchSize s1 s2 s3 locked inodes).1 = some l →
      l.length ≤ batchSize ∧
      ∀ r ∈ l, r.claimed_by = some worker ∧ r.claimed_at = some now ∧
        ∃ r0, r0 ∈ inodes ∧ r = setClaimRow worker now r0 ∧
          r0.medium_hash = mh ∧ r0.copied = false ∧ r0.claimed_by = none) := by
  have hserve : ∀ (startId : Option Nat) l,
      l = (probeSelect mh startId locked batchSize inodes).map (setClaimRow worker now) →
      l.length ≤ batchSize ∧
      ∀ r ∈ l, r.claimed_by = some worker ∧ r.claimed_at = some now ∧
        ∃ r0, r0 ∈ inodes ∧ r = setClaimRow worker now r0 ∧
          r0.medium_hash = mh ∧ r0.copied = false ∧ r0.claimed_by = none := by
    intro startId l hl
    subst hl
    constructor
    · rw [List.length_map]
      exact probeSelect_length mh startId locked batchSize inodes
    · intro r hr
      rcases List.mem_map.mp hr with ⟨r0, hr0, hmap⟩
      have hs := probeSelect_sound mh startId locked batchSize inodes r0 hr0
      subst hmap
      exact ⟨rfl, rfl, r0, hs.1, rfl, hs.2.1, hs.2.2.1, hs.2.2.2⟩
  by_cases h1 : probeSelect mh (some s1) locked batchSize inodes = []
  · by_cases h2 : probeSelect mh (some s2) locked batchSize inodes = []
    · by_cases h3 : probeSelect mh (some s3) locked batchSize inodes = []
      · by_cases hf : probeSelect mh none locked batchSize inodes = []
        · have hfetch : fetch_and_claim_batch mh worker now batchSize s1 s2 s3 locked inodes =
              (none, inodes) := by
            simp only [fetch_and_claim_batch]
            rw [if_neg (not_not_intro h1), if_neg (not_not_intro h2),
              if_neg (not_not_intro h3), if_pos hf]
          refine ⟨?_, ?_, ?_, ?_⟩
          · rw [hfetch]
            simp [h1, h2, h3, hf]
          · intro hc
            exact absurd h1 hc
          · intro _ _ _ hcf
            exact absurd hf hcf
          · intro l hl
            rw [hfetch] at hl
            simp at hl
        · have hfetch : fetch_and_claim_batch mh worker now batchSize s1 s2 s3 locked inodes =
              (some ((probeSelect mh none locked batchSize inodes).map
                (setClaimRow worker now)),
               applyClaimTo worker now (probeSelect mh none locked batchSize inodes) inodes) := by
            simp only [fetch_and_claim_batch]
            rw [if_neg (not_not_intro h1), if_neg (not_not_intro h2),
              if_neg (not_not_intro h3), if_neg hf]
          refine ⟨?_, ?_, ?_, ?_⟩
          · rw [hfetch]
            simp [hf]
          · intro hc
            exact absurd h1 hc
          · intro _ _ _ _
            exact hfetch
          · intro l hl
            rw [hfetch] at hl
            exact hserve none l (Option.some.inj hl).symm
      · have hfetch : fetch_and_claim_batch mh worker now batchSize s1 s2 s3 locked inodes =
            (some ((probeSelect mh (some s3) locked batchSize inodes).map
              (setClaimRow worker now)),
             applyClaimTo worker now (probeSelect mh (some s3) locked batchSize inodes)
               inodes) := by
          simp only [fetch_and_claim_batch]
          rw [if_neg (not_not_intro h1), if_neg (not_not_intro h2), if_pos h3]
        refine ⟨?_, ?_, ?_, ?_⟩
        · rw [hfetch]
          simp [h3]
        · intro hc
          exact absurd h1 hc
        · intro _ _ hc3 _
          exact absurd hc3 h3
        · intro l hl
          rw [hfetch] at hl
          exact hserve (some s3) l (Option.some.inj hl).symm
    · have hfetch : fetch_and_claim_batch mh worker now batchSize s1 s2 s3 locked inodes =
          (some ((probeSelect mh (some s2) locked batchSize inodes).map
            (setClaimRow worker now)),
           applyClaimTo worker now (probeSelect mh (some s2) locked batchSize inodes)
             inodes) := by
        simp only [fetch_and_claim_batch]
        rw [if_neg (not_not_intro h1), if_pos h2]
      refine ⟨?_, ?_, ?_, ?_⟩
      · rw [hfetch]
        simp [h2]
      · intro hc
        exact absurd h1 hc
      · intro _ hc2 _ _
        exact absurd hc2 h2
      · intro l hl
        rw [hfetch] at hl
        exact hserve (some s2) l (Option.some.inj hl).symm
  · have hfetch : fetch_and_claim_batch mh worker now batchSize s1 s2 s3 locked inodes =
        (some ((probeSelect mh (some s1) locked batchSize inodes).map (setClaimRow worker now)),
         applyClaimTo worker now (probeSelect mh (some s1) locked batchSize inodes) inodes) := by
      simp only [fetch_and_claim_batch]
      rw [if_pos h1]
    refine ⟨?_, ?_, ?_, ?_⟩
    · rw [hfetch]
      simp [h1]
    · intro _
      exact hfetch
    · intro hc1 _ _ _
      exact absurd hc1 h1
    · intro l hl
      rw [hfetch] at hl
      exact hserve (some s1) l (Option.some.inj hl).symm

/-- C6 witness: one concrete claim round — the first probe hits and
its row is returned claimed. -/
theorem c6_claim_batch_witness :
    probeSelect "m" (some 0) [] 2 [r0C] ≠ [] ∧
    fetch_and_claim_batch "m" "w1" 9 2 0 0 0 [] [r0C] =
      (some ((probeSelect "m" (some 0) [] 2 [r0C]).map (setClaimRow "w1" 9)),
       applyClaimTo "w1" 9 (probeSelect "m" (some 0) [] 2 [r0C]) [r0C]) :=
  ⟨by decide, (c6_claim_batch "m" "w1" 9 2 0 0 0 [] [r0C]).2.1 (by decide)⟩

/-- C7: the startup sweep marks exactly the rows of the medium with
`copied = false`, no claim, and at least 5 recorded errors — those get
`copied = true, claimed_by = 'MAX_RETRIES_EXCEEDED'` and are no longer
eligible for any claim probe — and leaves every other row unchanged. -/
theorem c7_startup_sweep (mh : String) (inodes : List InodeRow) (i : Nat) (r : InodeRow)
    (hrow : inodes[i]? = some r) :
    ((r.medium_hash = mh ∧ r.copied = false ∧ r.claimed_by = none ∧ 5 ≤ r.errors.length) →
      (mark_max_retries_exceeded mh inodes)[i]? =
        some { r with copied := true, claimed_by := some "MAX_RETRIES_EXCEEDED" } ∧
      ∀ startId locked,
        claimEligible mh startId locked
          { r with copied := true, claimed_by := some "MAX_RETRIES_EXCEEDED" } = false) ∧
    (¬(r.medium_hash = mh ∧ r.copied = false ∧ r.claimed_by = none ∧ 5 ≤ r.errors.length) →
      (mark_max_retries_exceeded mh inodes)[i]? = some r) := by
  have hmap : (mark_max_retries_exceeded mh inodes)[i]? =
      (inodes[i]?).map (fun r =>
        if r.medium_hash = mh ∧ r.copied = false ∧ r.claimed_by = none ∧
            5 ≤ r.errors.length then
          { r with copied := true, claimed_by := some "MAX_RETRIES_EXCEEDED" }
        else r) := by
    unfold mark_max_retries_exceeded
    rw [List.getElem?_map]
  constructor
  · intro hcond
    constructor
    · rw [hmap, hrow]
      simp [hcond]
    · intro startId locked
      simp [claimEligible]
  · intro hcond
    rw [hmap, hrow]
    simp [hcond]

/-- C7 witness: the sweep evaluated on a one-row table meeting the
condition. -/
theorem c7_startup_sweep_witness :
    (mark_max_retries_exceeded "m" [r0C])[0]? =
      some { r0C with copied := true, claimed_by := some "MAX_RETRIES_EXCEEDED" } ∧
    ∀ startId locked,
      claimEligible "m" startId locked
        { r0C with copied := true, claimed_by := some "MAX_RETRIES_EXCEEDED" } = false :=
  (c7_startup_sweep "m" [r0C] 0 r0C (by decide)).1 (by decide)

/-- C9: recording an error appends it to `errors`; if the array then
has length at least 3 with the last three entries identical, the inode
is terminally excluded (`copied = true`, `claimed_by = 'EXCLUDED:
persistent_failure: <msg>'`, never again claim-eligible); otherwise the
claim is cleared and the inode remains claim-eligible. -/
theorem c9_persistent_failure (worker : String) (now : Nat) (msg : String) (r : InodeRow)
    (hclaim : r.claimed_by = some worker) (hcop : r.copied = false) :
    (3 ≤ (r.errors ++ [msg]).length ∧ lastThreeIdentical (r.errors ++ [msg]) = true →
      release_claim worker now (some msg) r =
        { r with errors := r.errors ++ [msg], copied := true,
                 claimed_by := some ("EXCLUDED: " ++ ("persistent_failure: " ++ msg)),
                 claimed_at := some now } ∧
      ∀ startId locked,
        claimEligible r.medium_hash startId locked
          (release_claim worker now (some msg) r) = false) ∧
    (¬(3 ≤ (r.errors ++ [msg]).length ∧ lastThreeIdentical (r.errors ++ [msg]) = true) →
      release_claim worker now (some msg) r =
        { r with errors := r.errors ++ [msg], claimed_by := none, claimed_at := none } ∧
      claimEligible r.medium_hash none []
        (release_claim worker now (some msg) r) = true) := by
  constructor
  · intro hcond
    have hrel : release_claim worker now (some msg) r =
        { r with errors := r.errors ++ [msg], copied := true,
                 claimed_by := some ("EXCLUDED: " ++ ("persistent_failure: " ++ msg)),
                 claimed_at := some now } := by
      unfold release_claim
      dsimp only
      rw [if_pos hcond]
      rfl
    refine ⟨hrel, ?_⟩
    intro startId locked
    rw [hrel]
    simp [claimEligible]
  · intro hcond
    have hrel : release_claim worker now (some msg) r =
        { r with errors := r.errors ++ [msg], claimed_by := none, claimed_at := none } := by
      unfold release_claim
      dsimp only
      rw [if_neg hcond, if_pos hclaim]
    refine ⟨hrel, ?_⟩
    rw [hrel]
    simp [claimEligible, hcop]

/-- C9 witness: both branches evaluated on concrete rows — a third
identical error excludes; a fresh distinct error releases the claim. -/
theorem c9_persistent_failure_witness :
    (release_claim "w1" 9 (some "E: x")
        { r0C with claimed_by := some "w1", claimed_at := some 3, errors := ["E: x", "E: x"] } =
      { r0C with errors := ["E: x", "E: x", "E: x"], copied := true,
                 claimed_by := some ("EXCLUDED: " ++ ("persistent_failure: " ++ "E: x")),
                 claimed_at := some 9 } ∧
      ∀ startId locked,
        claimEligible "m" startId locked
          (release_claim "w1" 9 (some "E: x")
            { r0C with claimed_by := some "w1", claimed_at := some 3,
                       errors := ["E: x", "E: x"] }) = false) ∧
    release_claim "w1" 9 (some "E: y")
        { r0C with claimed_by := some "w1", claimed_at := some 3, errors := ["E: x", "E: x"] } =
      { r0C with errors := ["E: x", "E: x", "E: y"], claimed_by := none, claimed_at := none } := by
  refine ⟨?_, ?_⟩
  · exact (c9_persistent_failure "w1" 9 "E: x"
      { r0C with claimed_by := some "w1", claimed_at := some 3, errors := ["E: x", "E: x"] }
      (by decide) (by decide)).1 (by decide)
  · exact ((c9_persistent_failure "w1" 9 "E: y"
      { r0C with claimed_by := some "w1", claimed_at := some 3, errors := ["E: x", "E: x"] }
      (by decide) (by decide)).2 (by decide)).1

/-- C2, counterexample: after a successful batch the committed
transaction leaves `claimed_by`/`claimed_at` set, `processed_at` and
`by_hash_created` untouched, and performs no blobs upsert — contrary to
the claim that it clears the claim, sets `processed_at`/`by_hash_created`
and increments `n_hardlinks`. -/
theorem c2_counterexample :
    process_batch_commit "m" [inoSuccC] resultsC dbBatchC =
      { inodes := [{ inoSuccC with copied := true, blobid := some hashC }],
        paths := [{ pathRowC with blobid := some hashC }],
        blobs := [] } ∧
    ({ inoSuccC with copied := true, blobid := some hashC }).claimed_by = some "w1" ∧
    ({ inoSuccC with copied := true, blobid := some hashC }).processed_at = none ∧
    ¬ ({ inoSuccC with copied := true, blobid := some hashC }).claimed_by = none ∧
    (process_batch_commit "m" [inoSuccC] resultsC dbBatchC).blobs = [] := by
  refine ⟨by decide, by decide, by decide, by decide, by decide⟩

/-- C2, amended: the batch transaction sets `copied = true` and
`blobid = h` on the successful inode row and `blobid = h` on its
non-excluded path rows, and leaves every other inode column
(`by_hash_created`, `mime_type`, `processed_at`, `claimed_by`,
`claimed_at`) and the `blobs` table unchanged; the full success update
of the claim (claim clearing, `by_hash_created`, `mime_type`,
`processed_at`, blobs upsert) is what the per-inode
`update_db_for_file` transaction does, not the batch commit. -/
theorem c2_amended (mh : String) (claimed : List InodeRow)
    (results : List ((String × Nat) × PyResult)) (db : DB) (h : String)
    (i : Nat) (r : InodeRow) (hrow : db.inodes[i]? = some r) (hmed : r.medium_hash = mh)
    (hfind : (successUpdates claimed results).find? (fun u => u.1 == r.id) = some (r.id, h))
    (j : Nat) (p : PathRow) (hprow : db.paths[j]? = some p) (hpmed : p.medium_hash = mh)
    (hpexc : p.exclude_reason = none)
    (hpfind : (buildPathUpdates results).find? (fun u => u.1 == p.ino) = some (p.ino, h)) :
    (process_batch_commit mh claimed results db).inodes[i]? =
      some { r with copied := true, blobid := some h } ∧
    (process_batch_commit mh claimed results db).paths[j]? =
      some { p with blobid := some h } ∧
    (process_batch_commit mh claimed results db).blobs = db.blobs ∧
    (∀ (ino2 : Nat) (bhc : Bool) (numLinks : Nat) (mimeN : Option String) (now : Nat),
      r.ino = ino2 →
      (update_db_for_file mh ino2 h bhc numLinks mimeN now db).inodes[i]? =
        some { r with blobid := some h, copied := true, by_hash_created := bhc,
                      mime_type := (match mimeN with | some m => some m | none => r.mime_type),
                      processed_at := some now, claimed_by := none, claimed_at := none }) := by
  refine ⟨?_, ?_, rfl, ?_⟩
  · unfold process_batch_commit
    simp only [List.getElem?_map, hrow, Option.map_some', Option.map_some]
    rw [hfind]
    simp [hmed]
  · unfold process_batch_commit
    simp only [List.getElem?_map, hprow, Option.map_some', Option.map_some]
    rw [hpfind]
    simp [hpmed, hpexc]
  · intro ino2 bhc numLinks mimeN now hino
    unfold update_db_for_file
    simp only [List.getElem?_map, hrow, Option.map_some', Option.map_some]
    simp [hmed, hino]

/-- C2 witness: the amended batch-commit behavior evaluated on a
concrete one-inode batch. -/
theorem c2_amended_witness :
    (process_batch_commit "m" [inoSuccC] resultsC dbBatchC).inodes[0]? =
      some { inoSuccC with copied := true, blobid := some hashC } ∧
    (process_batch_commit "m" [inoSuccC] resultsC dbBatchC).paths[0]? =
      some { pathRowC with blobid := some hashC } ∧
    (process_batch_commit "m" [inoSuccC] resultsC dbBatchC).blobs = dbBatchC.blobs ∧
    (∀ (ino2 : Nat) (bhc : Bool) (numLinks : Nat) (mimeN : Option String) (now : Nat),
      inoSuccC.ino = ino2 →
      (update_db_for_file "m" ino2 hashC bhc numLinks mimeN now dbBatchC).inodes[0]? =
        some { inoSuccC with
                 blobid := some hashC, copied := true, by_hash_created := bhc,
                 mime_type :=
                   (match mimeN with | some m => some m | none => inoSuccC.mime_type),
                 processed_at := some now, claimed_by := none, claimed_at := none }) :=
  c2_amended "m" [inoSuccC] resultsC dbBatchC hashC 0 inoSuccC (by decide) (by decide)
    (by decide) 0 pathRowC (by decide) (by decide) (by decide) (by decide)

theorem mem_buildPathUpdates (results : List ((String × Nat) × PyResult)) (u : Nat × String)
    (h : u ∈ buildPathUpdates results) : is_sha256_hash_lowercase (.str u.2) = true := by
  unfold buildPathUpdates at h
  rcases List.mem_filterMap.mp h with ⟨e, he, hf⟩
  by_cases hg : is_sha256_hash_lowercase e.2 = true
  · rw [if_pos hg] at hf
    cases e2 : e.2 with
    | str s =>
      rw [e2] at hf hg
      have : u = (e.1.2, s) := by
        cases hf
        rfl
      rw [this]
      exact hg
    | errDict t m => rw [e2] at hf; simp at hf
    | pyNone => rw [e2] at hf; simp at hf
  · rw [if_neg hg] at hf
    simp at hf

/-- C10: every `(ino, blob_id)` pair that the batch commit can write
into `path.blobid` passes `is_sha256_hash_lowercase` — 64 characters,
all lowercase hex — and any path row whose `blobid` the commit changes
receives such a value; no other result shape reaches the path table. -/
theorem c10_path_blobid_gate (results : List ((String × Nat) × PyResult)) (ino : Nat)
    (s : String) (h : (ino, s) ∈ buildPathUpdates results) :
    is_sha256_hash_lowercase (.str s) = true ∧
    s.length = 64 ∧
    s.toList.all (fun c => HEX_CHARS.contains c) = true ∧
    (∀ (mh : String) (claimed : List InodeRow) (db : DB) (j : Nat) (p p2 : PathRow),
      db.paths[j]? = some p →
      (process_batch_commit mh claimed results db).paths[j]? = some p2 →
      p2.blobid ≠ p.blobid →
      ∃ s2, p2.blobid = some s2 ∧ s2.length = 64 ∧
        s2.toList.all (fun c => HEX_CHARS.contains c) = true) := by
  have hgate := mem_buildPathUpdates results (ino, s) h
  have hlen : s.length = 64 ∧ s.toList.all (fun c => HEX_CHARS.contains c) = true := by
    simp only [is_sha256_hash_lowercase, Bool.and_eq_true, beq_iff_eq] at hgate
    exact hgate
  refine ⟨hgate, hlen.1, hlen.2, ?_⟩
  intro mh claimed db j p p2 hdb hcommit hdiff
  unfold process_batch_commit at hcommit
  simp only [List.getElem?_map, hdb, Option.map_some', Option.map_some] at hcommit
  rcases hfind : (buildPathUpdates results).find? (fun u => u.1 == p.ino) with _ | u
  · rw [hfind] at hcommit
    have : p2 = p := by
      cases hcommit
      rfl
    rw [this] at hdiff
    exact absurd rfl hdiff
  · rw [hfind] at hcommit
    have hmem : u ∈ buildPathUpdates results :=
      List.mem_of_find?_eq_some hfind
    have hg2 := mem_buildPathUpdates results u hmem
    have hlu : u.2.length = 64 ∧ u.2.toList.all (fun c => HEX_CHARS.contains c) = true := by
      simp only [is_sha256_hash_lowercase, Bool.and_eq_true, beq_iff_eq] at hg2
      exact hg2
    have hcommit2 : (if p.medium_hash = mh ∧ p.exclude_reason = none then
        { p with blobid := some u.2 } else p) = p2 := Option.some.inj hcommit
    by_cases hc : p.medium_hash = mh ∧ p.exclude_reason = none
    · rw [if_pos hc] at hcommit2
      exact ⟨u.2, by rw [← hcommit2], hlu.1, hlu.2⟩
    · rw [if_neg hc] at hcommit2
      rw [← hcommit2] at hdiff
      exact absurd rfl hdiff

/-- C10 witness: the gate evaluated on the concrete batch results —
the valid digest is written, and the commit on the concrete database
writes only that value. -/
theorem c10_path_blobid_gate_witness :
    is_sha256_hash_lowercase (.str hashC) = true ∧
    hashC.length = 64 ∧
    hashC.toList.all (fun c => HEX_CHARS.contains c) = true :=
  have h := c10_path_blobid_gate resultsC 1 hashC (by decide)
  ⟨h.1, h.2.1, h.2.2.1⟩

end NTT
